import Mathlib

/-!
Shallow embedding of the Blackjack ("21") rules engine `Game21` from
`Template/Code/game_logic.py`, together with proofs of the specification
claims about it.

Modelling conventions:
* A Python card string such as `'A♠'` or `'10♥'` is embedded as a
  `List Char` (Python strings are sequences of characters; `card[:-1]`
  becomes `List.dropLast`).
* Python `random.shuffle` is nondeterministic; every operation that may
  (re)shuffle takes the shuffled deck it would produce as an explicit
  parameter, and theorems hypothesise that this parameter is a
  permutation of the freshly created deck.
* A Python exception (the `ValueError` that `int(rank)` can raise, or an
  `IndexError` on out-of-bounds list indexing) is embedded as `none`;
  fallible operations return `Option`.
* The dealer's `while` loop is embedded with explicit fuel; the
  termination theorem shows a concrete fuel bound always suffices.
-/

/-- A card, e.g. `['A', '♠']` or `['1', '0', '♥']`: the Python string. -/
abbrev Card := List Char

/-- The thirteen ranks, in the order built by `create_deck`:
`["A"] + [str(n) for n in range(2, 11)] + ["J", "Q", "K"]`. -/
def ranks : List (List Char) :=
  [['A'], ['2'], ['3'], ['4'], ['5'], ['6'], ['7'], ['8'], ['9'],
   ['1', '0'], ['J'], ['Q'], ['K']]

/-- The four suit symbols `["♠", "♥", "♦", "♣"]`. -/
def suits : List Char := ['♠', '♥', '♦', '♣']

/-- `Game21.create_deck`: the 52 strings `f"{rank}{suit}"`, rank-major. -/
def create_deck : List Card :=
  ranks.flatMap (fun r => suits.map (fun s => r ++ [s]))

/-- The full engine state: `self.deck`, `self.deck_position`,
`self.player_hand`, `self.dealer_hand`, `self.dealer_hidden_revealed`. -/
structure Game21 where
  deck : List Card
  deck_position : Nat
  player_hand : List Card
  dealer_hand : List Card
  dealer_hidden_revealed : Bool
  deriving Repr, DecidableEq

/-- Python `int(s)` restricted to the nonnegative literals that occur as
card ranks: succeeds exactly on a nonempty all-digit string, returning its
value; `none` embeds the `ValueError` raised on any other string. -/
def py_int (s : List Char) : Option Int :=
  if s ≠ [] ∧ s.all (fun c => c.isDigit) then
    some (s.foldl (fun a c => 10 * a + (c.toNat - '0'.toNat)) 0)
  else
    none

/-- `Game21.card_value`: `rank = card[:-1]`; J/Q/K ↦ 10, A ↦ 11,
otherwise `int(rank)` (which may raise, i.e. return `none`). -/
def card_value (card : Card) : Option Int :=
  let rank := card.dropLast
  if rank = ['J'] ∨ rank = ['Q'] ∨ rank = ['K'] then some 10
  else if rank = ['A'] then some 11
  else py_int rank

/-- The `while total > 21 and ace_count > 0: total -= 10; ace_count -= 1`
loop of `Game21.hand_total`, by recursion on the ace count. -/
def ace_adjust : Int → Nat → Int
  | total, 0 => total
  | total, n + 1 => if total > 21 then ace_adjust (total - 10) n else total

/-- `sum(self.card_value(c) for c in hand)`: the running sum, propagating
the `ValueError` (`none`) raised by `card_value` on any card. -/
def sum_values : List Card → Option Int
  | [] => some 0
  | c :: cs =>
    match card_value c, sum_values cs with
    | some v, some s => some (v + s)
    | _, _ => none

/-- `Game21.hand_total`: sum of `card_value` over the hand (propagating a
`ValueError` from any card), then downgrade Aces while the total busts. -/
def hand_total (hand : List Card) : Option Int :=
  match sum_values hand with
  | none => none
  | some total =>
      some (ace_adjust total (hand.countP (fun c => c.dropLast = ['A'])))

/-- `Game21.new_round`: install a freshly shuffled deck `d` (the outcome of
`random.shuffle(self.create_deck())`, passed explicitly), reset the cursor,
empty both hands, hide the dealer's hole card.  The previous state is
discarded entirely. -/
def new_round (d : List Card) (_g : Game21) : Game21 :=
  { deck := d
    deck_position := 0
    player_hand := []
    dealer_hand := []
    dealer_hidden_revealed := false }

/-- `Game21.draw_card`: if the cursor has reached the end of the deck,
replace the deck by the reshuffled deck `r` and reset the cursor; then
return the card at the cursor (an out-of-range index would be Python's
`IndexError`, embedded as `none`) and advance the cursor. -/
def draw_card (r : List Card) (g : Game21) : Option (Card × Game21) :=
  let g1 :=
    if g.deck.length ≤ g.deck_position then
      { g with deck := r, deck_position := 0 }
    else g
  match g1.deck.get? g1.deck_position with
  | none => none
  | some card => some (card, { g1 with deck_position := g1.deck_position + 1 })

/-- `Game21.deal_initial_cards`: two draws into the player's hand, then two
into the dealer's. -/
def deal_initial_cards (r : List Card) (g : Game21) : Option Game21 :=
  match draw_card r g with
  | none => none
  | some (c1, g1) =>
    match draw_card r g1 with
    | none => none
    | some (c2, g2) =>
      match draw_card r { g2 with player_hand := [c1, c2] } with
      | none => none
      | some (c3, g3) =>
        match draw_card r g3 with
        | none => none
        | some (c4, g4) => some { g4 with dealer_hand := [c3, c4] }

/-- `Game21.player_hit`: draw one card, append it to the player's hand,
return it. -/
def player_hit (r : List Card) (g : Game21) : Option (Card × Game21) :=
  match draw_card r g with
  | none => none
  | some (card, g1) =>
      some (card, { g1 with player_hand := g1.player_hand ++ [card] })

/-- `Game21.player_total`. -/
def player_total (g : Game21) : Option Int := hand_total g.player_hand

/-- `Game21.reveal_dealer_card`: set the reveal flag, nothing else. -/
def reveal_dealer_card (g : Game21) : Game21 :=
  { g with dealer_hidden_revealed := true }

/-- `Game21.dealer_total`. -/
def dealer_total (g : Game21) : Option Int := hand_total g.dealer_hand

/-- The `while self.dealer_total() < 17` loop of `Game21.play_dealer_turn`,
with explicit fuel bounding the number of iterations; `acc` accumulates
`drawn_cards`.  `none` is reached on fuel exhaustion or on a Python
exception inside the loop (neither occurs under the game's invariants). -/
def dealer_loop (r : List Card) : Nat → Game21 → List Card →
    Option (List Card × Game21)
  | 0, _, _ => none
  | fuel + 1, g, acc =>
    match dealer_total g with
    | none => none
    | some t =>
        if t < 17 then
          match draw_card r g with
          | none => none
          | some (card, g1) =>
              dealer_loop r fuel
                { g1 with dealer_hand := g1.dealer_hand ++ [card] }
                (acc ++ [card])
        else some (acc, g)

/-- `Game21.play_dealer_turn`: reveal the hole card unconditionally, then
hit while the dealer total is below 17, returning the drawn cards. -/
def play_dealer_turn (r : List Card) (fuel : Nat) (g : Game21) :
    Option (List Card × Game21) :=
  dealer_loop r fuel { g with dealer_hidden_revealed := true } []

/-- `Game21.decide_winner`: force the reveal flag, then compare totals,
busts checked first (player's first). Returns the result message. -/
def decide_winner (g : Game21) : Option (String × Game21) :=
  let g1 := { g with dealer_hidden_revealed := true }
  match player_total g1, dealer_total g1 with
  | some p, some d =>
      if p > 21 then some ("Player busts. Dealer wins!", g1)
      else if d > 21 then some ("Dealer busts. Player wins!", g1)
      else if p > d then some ("Player wins!", g1)
      else if d > p then some ("Dealer wins!", g1)
      else some ("Push (tie).", g1)
  | _, _ => none

/-- A hand is valid when every card's value computation succeeds. -/
def all_valid (hand : List Card) : Prop :=
  ∀ c ∈ hand, (card_value c).isSome

instance (hand : List Card) : Decidable (all_valid hand) := by
  unfold all_valid; infer_instance

/-- The card values of a hand, read off under validity. -/
def valsOf (hand : List Card) : List Int :=
  hand.map (fun c => (card_value c).getD 0)

/-- Number of Aces in a hand, as counted by `hand_total`. -/
def aceCount (hand : List Card) : Nat :=
  hand.countP (fun c => c.dropLast = ['A'])

/-- The spec's closed form for the number of Ace downgrades: zero when the
raw sum does not bust, otherwise as many as needed to reach 21 or the
number of Aces, whichever is smaller. -/
def spec_downgrades (total : Int) (aces : Nat) : Nat :=
  if total ≤ 21 then 0 else min aces ((total - 12) / 10).toNat

/-- The spec's closed form of `handTotal`: raw sum of card values, minus
10 per downgraded Ace. -/
def spec_hand_total (hand : List Card) : Option Int :=
  match sum_values hand with
  | none => none
  | some s => some (s - 10 * spec_downgrades s (aceCount hand))

/-- `n` successive calls to `draw_card`, collecting the drawn cards. -/
def draw_n (r : List Card) : Nat → Game21 → Option (List Card × Game21)
  | 0, g => some ([], g)
  | n + 1, g =>
    match draw_card r g with
    | none => none
    | some (c, g1) =>
      match draw_n r n g1 with
      | none => none
      | some (cs, g2) => some (c :: cs, g2)

/-- The minimum value a card can contribute to a hand total: 1 for an Ace
(after downgrade), its `card_value` otherwise.  Proof device used as the
termination measure of the dealer loop. -/
def hard_value (c : Card) : Int :=
  if c.dropLast = ['A'] then 1 else (card_value c).getD 0

/-- The "hard" total of a hand: every Ace counted as 1.  A lower bound on
`hand_total` that strictly increases with every card drawn. -/
def hard_total (hand : List Card) : Int :=
  (hand.map hard_value).sum

/-- The shoe invariant: the deck always holds 52 cards and the cursor
stays within `[0, 52]`. -/
def ShoeInv (g : Game21) : Prop :=
  g.deck.length = 52 ∧ g.deck_position ≤ 52

/-- A round state with the given hands over an unshuffled fresh deck;
used to instantiate claims at concrete inputs. -/
def test_state (p d : List Card) : Game21 :=
  { deck := create_deck
    deck_position := 0
    player_hand := p
    dealer_hand := d
    dealer_hidden_revealed := false }

/-- A dealer-turn state about to draw a 9 into a soft 16 (`A♠ 5♥`):
position 32 of the unshuffled deck is `9♠`. -/
def soft16_state : Game21 :=
  { deck := create_deck
    deck_position := 32
    player_hand := []
    dealer_hand := [['A','♠'], ['5','♥']]
    dealer_hidden_revealed := false }

theorem sum_values_of_valid (hand : List Card) (h : all_valid hand) :
    sum_values hand = some (valsOf hand).sum := by
  induction hand with
  | nil => rfl
  | cons a l ih =>
      have ha : (card_value a).isSome := h a (List.mem_cons_self a l)
      obtain ⟨v, hv⟩ := Option.isSome_iff_exists.mp ha
      have hl : all_valid l := fun c hc => h c (List.mem_cons_of_mem a hc)
      simp [sum_values, hv, ih hl, valsOf]

theorem sum_values_of_invalid (hand : List Card) (h : ¬ all_valid hand) :
    sum_values hand = none := by
  induction hand with
  | nil => exact absurd (by intro c hc; cases hc) h
  | cons a l ih =>
      by_cases ha : (card_value a).isSome
      · obtain ⟨v, hv⟩ := Option.isSome_iff_exists.mp ha
        have hl : ¬ all_valid l := by
          intro hl
          exact h (fun c hc => by
            rcases List.mem_cons.mp hc with rfl | hc
            · exact ha
            · exact hl c hc)
        simp [sum_values, hv, ih hl]
      · have hn : card_value a = none := Option.not_isSome_iff_eq_none.mp ha
        simp [sum_values, hn]

theorem hand_total_of_valid (hand : List Card) (h : all_valid hand) :
    hand_total hand = some (ace_adjust (valsOf hand).sum (aceCount hand)) := by
  simp [hand_total, sum_values_of_valid hand h, aceCount]

theorem hand_total_of_invalid (hand : List Card) (h : ¬ all_valid hand) :
    hand_total hand = none := by
  simp [hand_total, sum_values_of_invalid hand h]

/-- `hand_total` only depends on the multiset of cards. -/
theorem hand_total_perm (h1 h2 : List Card) (hp : h1.Perm h2) :
    hand_total h1 = hand_total h2 := by
  by_cases hv : all_valid h1
  · have hv2 : all_valid h2 := fun c hc => hv c (hp.mem_iff.mpr hc)
    rw [hand_total_of_valid h1 hv, hand_total_of_valid h2 hv2]
    have hsum : (valsOf h1).sum = (valsOf h2).sum :=
      (hp.map (fun c => (card_value c).getD 0)).sum_eq
    have hcnt : aceCount h1 = aceCount h2 := by
      unfold aceCount; exact hp.countP_eq _
    rw [hsum, hcnt]
  · have hv2 : ¬ all_valid h2 := fun hv2 =>
      hv (fun c hc => hv2 c (hp.mem_iff.mp hc))
    rw [hand_total_of_invalid h1 hv, hand_total_of_invalid h2 hv2]

theorem ace_adjust_closed (n : Nat) : ∀ t : Int,
    ace_adjust t n = t - 10 * spec_downgrades t n := by
  induction n with
  | zero => intro t; simp [ace_adjust, spec_downgrades]
  | succ n ih =>
      intro t
      by_cases h : t > 21
      · rw [show ace_adjust t (n + 1) = ace_adjust (t - 10) n from if_pos h,
          ih (t - 10)]
        unfold spec_downgrades
        rcases le_or_lt (t - 10) 21 with h10 | h10
        · rw [if_pos h10, if_neg (not_le.mpr h)]
          have : ((t - 12) / 10).toNat = 1 := by omega
          simp [this]
        · rw [if_neg (not_le.mpr h10), if_neg (not_le.mpr h)]
          have h1 : ((t - 12) / 10).toNat = ((t - 22) / 10).toNat + 1 := by
            omega
          have h2 : min (n + 1) (((t - 22) / 10).toNat + 1)
              = min n ((t - 22) / 10).toNat + 1 := by omega
          rw [h1, h2]
          push_cast
          ring_nf
      · rw [show ace_adjust t (n + 1) = t from if_neg h]
        simp [spec_downgrades, le_of_not_lt h]

theorem hand_total_eq_spec (hand : List Card) :
    hand_total hand = spec_hand_total hand := by
  unfold hand_total spec_hand_total
  cases hmv : sum_values hand with
  | none => rfl
  | some s => simp [ace_adjust_closed, aceCount]

/-- C1: `hand_total` equals the spec's closed form (raw sum of card
values, J/Q/K as 10, Ace as 11, then 10 subtracted per downgraded Ace
while the total busts); the empty hand totals 0; the four worked examples
hold for arbitrary suit characters; and the result is invariant under any
reordering of the hand. -/
theorem C1_hand_total_closed_form :
    (∀ hand : List Card, hand_total hand = spec_hand_total hand)
    ∧ hand_total [] = some 0
    ∧ (∀ s1 s2 s3 : Char,
        hand_total [['A',s1], ['A',s2], ['9',s3]] = some 21)
    ∧ (∀ s1 s2 : Char, hand_total [['A',s1], ['K',s2]] = some 21)
    ∧ (∀ s1 s2 : Char, hand_total [['A',s1], ['9',s2]] = some 20)
    ∧ (∀ s1 s2 s3 s4 : Char,
        hand_total [['A',s1], ['A',s2], ['A',s3], ['8',s4]] = some 21)
    ∧ (∀ h1 h2 : List Card, h1.Perm h2 → hand_total h1 = hand_total h2) :=
  ⟨hand_total_eq_spec,
   by decide,
   fun s1 s2 s3 => by
     simp [hand_total, sum_values, card_value, py_int, List.dropLast,
       ace_adjust],
   fun s1 s2 => by
     simp [hand_total, sum_values, card_value, py_int, List.dropLast,
       ace_adjust],
   fun s1 s2 => by
     simp [hand_total, sum_values, card_value, py_int, List.dropLast,
       ace_adjust],
   fun s1 s2 s3 s4 => by
     simp [hand_total, sum_values, card_value, py_int, List.dropLast,
       ace_adjust],
   hand_total_perm⟩

/-- Witness for C1: the reordering clause applied to a concrete pair of
permuted hands. -/
theorem C1_witness :
    ([['A','♠'], ['K','♥']] : List Card).Perm [['K','♥'], ['A','♠']]
    ∧ hand_total [['A','♠'], ['K','♥']] = hand_total [['K','♥'], ['A','♠']] :=
  ⟨by decide,
   C1_hand_total_closed_form.2.2.2.2.2.2 [['A','♠'], ['K','♥']]
     [['K','♥'], ['A','♠']] (by decide)⟩

example : hand_total [['A','♠'], ['A','♥'], ['9','♣']] = some 21 := by decide
example : hand_total [['A','♠'], ['K','♥']] = some 21 := by decide
example : hand_total [['A','♠'], ['9','♥']] = some 20 := by decide
example : hand_total [['A','♠'], ['A','♥'], ['A','♦'], ['8','♣']] = some 21 := by
  decide
example : hand_total [] = some 0 := by decide
example : create_deck.length = 52 := by decide

/-- C9: `reveal_dealer_card` sets the reveal flag and changes nothing
else — hands, shoe, cursor, and both totals are untouched — and it is
idempotent. -/
theorem C9_reveal_dealer_hole (g : Game21) :
    (reveal_dealer_card g).dealer_hidden_revealed = true
    ∧ (reveal_dealer_card g).player_hand = g.player_hand
    ∧ (reveal_dealer_card g).dealer_hand = g.dealer_hand
    ∧ (reveal_dealer_card g).deck = g.deck
    ∧ (reveal_dealer_card g).deck_position = g.deck_position
    ∧ player_total (reveal_dealer_card g) = player_total g
    ∧ dealer_total (reveal_dealer_card g) = dealer_total g
    ∧ reveal_dealer_card (reveal_dealer_card g) = reveal_dealer_card g :=
  ⟨rfl, rfl, rfl, rfl, rfl, rfl, rfl, rfl⟩

/-- C2: `decide_winner` evaluates its rules top-to-bottom with the first
match winning (player bust, then dealer bust, then higher total, then
push), and on the four concrete scenarios — double bust 22 vs 23, 20 vs
18, 19 vs 19, 17 vs 22 — returns the stated outcomes. -/
theorem C2_decide_winner :
    (∀ (g : Game21) (p d : Int),
        player_total g = some p → dealer_total g = some d →
        decide_winner g = some
          ((if p > 21 then "Player busts. Dealer wins!"
            else if d > 21 then "Dealer busts. Player wins!"
            else if p > d then "Player wins!"
            else if d > p then "Dealer wins!"
            else "Push (tie)."),
           { g with dealer_hidden_revealed := true }))
    ∧ (decide_winner (test_state [['K','♠'], ['Q','♠'], ['2','♠']]
          [['K','♥'], ['Q','♥'], ['3','♥']])).map Prod.fst
        = some "Player busts. Dealer wins!"
    ∧ (decide_winner (test_state [['K','♠'], ['Q','♠']]
          [['K','♥'], ['8','♥']])).map Prod.fst = some "Player wins!"
    ∧ (decide_winner (test_state [['K','♠'], ['9','♠']]
          [['K','♥'], ['9','♥']])).map Prod.fst = some "Push (tie)."
    ∧ (decide_winner (test_state [['K','♠'], ['7','♠']]
          [['K','♥'], ['Q','♥'], ['2','♥']])).map Prod.fst
        = some "Dealer busts. Player wins!" := by
  refine ⟨?_, by decide, by decide, by decide, by decide⟩
  intro g p d hp hd
  have hp' : player_total { g with dealer_hidden_revealed := true } = some p :=
    hp
  have hd' : dealer_total { g with dealer_hidden_revealed := true } = some d :=
    hd
  unfold decide_winner
  simp only [hp', hd']
  split_ifs <;> rfl

/-- Witness for C2: the decision cascade applied to the concrete 20 vs 18
state. -/
theorem C2_witness :
    player_total (test_state [['K','♠'], ['Q','♠']] [['K','♥'], ['8','♥']])
        = some 20
    ∧ dealer_total (test_state [['K','♠'], ['Q','♠']] [['K','♥'], ['8','♥']])
        = some 18
    ∧ decide_winner (test_state [['K','♠'], ['Q','♠']] [['K','♥'], ['8','♥']])
        = some ("Player wins!",
            reveal_dealer_card
              (test_state [['K','♠'], ['Q','♠']] [['K','♥'], ['8','♥']])) :=
  ⟨by decide, by decide,
   (C2_decide_winner.1 _ 20 18 (by decide) (by decide)).trans (by decide)⟩

theorem create_deck_length : create_deck.length = 52 := by decide

theorem create_deck_nodup : create_deck.Nodup := by decide

theorem mem_create_deck : ∀ r ∈ ranks, ∀ s ∈ suits, r ++ [s] ∈ create_deck :=
  by decide

/-- C6: `new_round` (from any state) installs a 52-card shoe with no
duplicate cards covering the full 13×4 rank/suit cross-product, resets the
cursor to 0, empties both hands and hides the dealer's hole card.  It is a
total function: no failure is possible. -/
theorem C6_new_round (d : List Card) (g : Game21) (hd : d.Perm create_deck) :
    (new_round d g).deck.length = 52
    ∧ (new_round d g).deck.Nodup
    ∧ (∀ r ∈ ranks, ∀ s ∈ suits, r ++ [s] ∈ (new_round d g).deck)
    ∧ (new_round d g).deck_position = 0
    ∧ (new_round d g).player_hand = []
    ∧ (new_round d g).dealer_hand = []
    ∧ (new_round d g).dealer_hidden_revealed = false := by
  refine ⟨?_, ?_, ?_, rfl, rfl, rfl, rfl⟩
  · rw [show (new_round d g).deck = d from rfl, hd.length_eq,
      create_deck_length]
  · exact (hd.nodup_iff).mpr create_deck_nodup
  · intro r hr s hs
    exact hd.mem_iff.mpr (mem_create_deck r hr s hs)

/-- Witness for C6: a new round over the identity shuffle. -/
theorem C6_witness :
    create_deck.Perm create_deck
    ∧ (new_round create_deck (test_state [] [])).deck_position = 0
    ∧ (new_round create_deck (test_state [] [])).deck.Nodup :=
  ⟨List.Perm.refl _,
   (C6_new_round create_deck (test_state [] []) (List.Perm.refl _)).2.2.2.1,
   (C6_new_round create_deck (test_state [] []) (List.Perm.refl _)).2.1⟩

theorem draw_card_lt (r : List Card) (g : Game21)
    (h : g.deck_position < g.deck.length) :
    draw_card r g = some (g.deck.get ⟨g.deck_position, h⟩,
      { g with deck_position := g.deck_position + 1 }) := by
  unfold draw_card
  simp only [if_neg (not_le.mpr h)]
  rw [List.get?_eq_get h]

theorem draw_card_ge (r : List Card) (g : Game21)
    (h : g.deck.length ≤ g.deck_position) (hr : 0 < r.length) :
    draw_card r g
      = some (r.get ⟨0, hr⟩, { g with deck := r, deck_position := 1 }) := by
  unfold draw_card
  simp only [if_pos h]
  rw [List.get?_eq_get hr]

theorem draw_card_frame (r : List Card) (g : Game21) (c : Card) (g' : Game21)
    (h : draw_card r g = some (c, g')) :
    g'.player_hand = g.player_hand
    ∧ g'.dealer_hand = g.dealer_hand
    ∧ g'.dealer_hidden_revealed = g.dealer_hidden_revealed
    ∧ (g'.deck = g.deck ∨ g'.deck = r)
    ∧ c ∈ g'.deck
    ∧ 1 ≤ g'.deck_position
    ∧ (g.deck.length = 52 → r.length = 52 →
        g'.deck.length = 52 ∧ g'.deck_position ≤ 52) := by
  by_cases hpos : g.deck.length ≤ g.deck_position
  · rcases Nat.eq_zero_or_pos r.length with hr | hr
    · rw [draw_card] at h
      simp only [if_pos hpos] at h
      rw [List.length_eq_zero.mp hr] at h
      simp at h
    · rw [draw_card_ge r g hpos hr] at h
      obtain ⟨rfl, rfl⟩ := Prod.mk.injEq .. ▸ Option.some.inj h
      refine ⟨rfl, rfl, rfl, Or.inr rfl, ?_, le_refl 1, fun _ hr52 => ?_⟩
      · exact List.get_mem r 0 hr
      · exact ⟨hr52, show (1 : Nat) ≤ 52 by omega⟩
  · have hlt : g.deck_position < g.deck.length := lt_of_not_le hpos
    rw [draw_card_lt r g hlt] at h
    obtain ⟨rfl, rfl⟩ := Prod.mk.injEq .. ▸ Option.some.inj h
    refine ⟨rfl, rfl, rfl, Or.inl rfl, ?_,
      show 1 ≤ g.deck_position + 1 by omega, fun h52 _ => ?_⟩
    · exact List.get_mem g.deck g.deck_position hlt
    · exact ⟨h52, show g.deck_position + 1 ≤ 52 by omega⟩

theorem draw_card_isSome (r : List Card) (g : Game21)
    (hr : r.length = 52) (_hg : g.deck.length = 52) :
    ∃ c g', draw_card r g = some (c, g') := by
  by_cases hpos : g.deck.length ≤ g.deck_position
  · exact ⟨_, _, draw_card_ge r g hpos (by omega)⟩
  · exact ⟨_, _, draw_card_lt r g (lt_of_not_le hpos)⟩

theorem draw_n_no_reshuffle (r : List Card) :
    ∀ (n : Nat) (g : Game21), g.deck_position + n ≤ g.deck.length →
      draw_n r n g = some ((g.deck.drop g.deck_position).take n,
        { g with deck_position := g.deck_position + n }) := by
  intro n
  induction n with
  | zero => intro g _; rfl
  | succ n ih =>
      intro g h
      have hlt : g.deck_position < g.deck.length := by omega
      have h1 : g.deck_position + 1 + n ≤ g.deck.length := by omega
      simp only [draw_n, draw_card_lt r g hlt]
      rw [ih { g with deck_position := g.deck_position + 1 } h1]
      simp only []
      rw [List.drop_eq_getElem_cons hlt, List.take_succ_cons,
        show g.deck_position + (n + 1) = g.deck_position + 1 + n by omega]
      rfl

theorem draw_n_add (r : List Card) (m n : Nat) :
    ∀ g, draw_n r (m + n) g
      = (draw_n r m g).bind (fun p =>
          (draw_n r n p.2).map (fun q => (p.1 ++ q.1, q.2))) := by
  induction m with
  | zero =>
      intro g
      rw [Nat.zero_add]
      simp only [draw_n, Option.some_bind]
      cases h : draw_n r n g with
      | none => rfl
      | some p =>
          obtain ⟨ds, g2⟩ := p
          simp
  | succ m ih =>
      intro g
      rw [show m + 1 + n = (m + n) + 1 by omega]
      cases hd : draw_card r g with
      | none => simp only [draw_n, hd]; rfl
      | some p =>
          obtain ⟨c, g1⟩ := p
          simp only [draw_n, hd]
          rw [ih g1]
          cases h1 : draw_n r m g1 with
          | none => rfl
          | some q =>
              obtain ⟨cs, g2⟩ := q
              simp only [Option.some_bind]
              cases h2 : draw_n r n g2 with
              | none => rfl
              | some q2 =>
                  obtain ⟨ds, g3⟩ := q2
                  simp

/-- C3: `draw_card` never fails: whenever the 52-card deck is exhausted
(the cursor at or past its end) it reshuffles first, so with any
permutation of a fresh deck installed it always returns a card; when the
cursor is exhausted the returned card is the reshuffled deck's first and
the cursor restarts at 1; and 53 successive draws from a fresh shoe all
succeed, the first 52 being the (pairwise-distinct) shuffled deck itself
and the 53rd coming from the regenerated shoe. -/
theorem C3_draw_card_never_exhausts :
    (∀ (r : List Card) (g : Game21), r.Perm create_deck →
        g.deck.length = 52 → ∃ c g', draw_card r g = some (c, g'))
    ∧ (∀ (r : List Card) (g : Game21), r.Perm create_deck →
        g.deck.length ≤ g.deck_position →
        ∃ h0 : 0 < r.length,
          draw_card r g
            = some (r.get ⟨0, h0⟩, { g with deck := r, deck_position := 1 }))
    ∧ (∀ (d r : List Card) (g : Game21), d.Perm create_deck →
        r.Perm create_deck →
        ∃ h0 : 0 < r.length,
          draw_n r 53 (new_round d g)
            = some (d ++ [r.get ⟨0, h0⟩],
                { deck := r, deck_position := 1, player_hand := [],
                  dealer_hand := [], dealer_hidden_revealed := false })
          ∧ d.Nodup ∧ d.length = 52) := by
  refine ⟨?_, ?_, ?_⟩
  · intro r g hr hg
    exact draw_card_isSome r g (hr.length_eq.trans create_deck_length) hg
  · intro r g hr hpos
    have h0 : 0 < r.length := by
      rw [hr.length_eq, create_deck_length]; omega
    exact ⟨h0, draw_card_ge r g hpos h0⟩
  · intro d r g hd hr
    have hdlen : d.length = 52 := hd.length_eq.trans create_deck_length
    have hrlen : r.length = 52 := hr.length_eq.trans create_deck_length
    have h0 : 0 < r.length := by omega
    refine ⟨h0, ?_, (hd.nodup_iff).mpr create_deck_nodup, hdlen⟩
    have h52 : draw_n r 52 (new_round d g)
        = some (d, { deck := d, deck_position := 52, player_hand := [],
                     dealer_hand := [], dealer_hidden_revealed := false }) := by
      rw [draw_n_no_reshuffle r 52 (new_round d g)
        (by simp [new_round, hdlen])]
      show some _ = some _
      rw [show (new_round d g).deck = d from rfl,
        show (new_round d g).deck_position = 0 from rfl,
        List.drop_zero, Nat.zero_add, ← hdlen, List.take_length]
      rfl
    have h1 : draw_n r 1
        ({ deck := d, deck_position := 52, player_hand := [],
           dealer_hand := [], dealer_hidden_revealed := false } : Game21)
        = some ([r.get ⟨0, h0⟩],
            { deck := r, deck_position := 1, player_hand := [],
              dealer_hand := [], dealer_hidden_revealed := false }) := by
      simp only [draw_n]
      rw [draw_card_ge r _ (by simp [hdlen]) h0]
    rw [show (53 : Nat) = 52 + 1 from rfl, draw_n_add r 52 1 _, h52]
    simp only [Option.some_bind]
    rw [h1]
    rfl

/-- Witness for C3: a draw from a fresh identity-shuffled shoe. -/
theorem C3_witness :
    create_deck.Perm create_deck
    ∧ (test_state [] []).deck.length = 52
    ∧ ∃ c g', draw_card create_deck (test_state [] []) = some (c, g') :=
  ⟨List.Perm.refl _, by decide,
   C3_draw_card_never_exhausts.1 create_deck (test_state [] [])
     (List.Perm.refl _) (by decide)⟩

theorem deck_all_valid : ∀ c ∈ create_deck, (card_value c).isSome := by
  decide

theorem deck_hard_one : ∀ c ∈ create_deck, 1 ≤ hard_value c := by decide

theorem deck_value_le : ∀ c ∈ create_deck, (card_value c).getD 0 ≤ 11 := by
  decide

theorem deck_value_le_ten :
    ∀ c ∈ create_deck, ¬ c.dropLast = ['A'] → (card_value c).getD 0 ≤ 10 := by
  decide

theorem valid_of_deck (hand : List Card)
    (h : ∀ c ∈ hand, c ∈ create_deck) : all_valid hand :=
  fun c hc => deck_all_valid c (h c hc)

theorem hard_value_eq (c : Card) :
    hard_value c = (card_value c).getD 0
      - (if c.dropLast = ['A'] then 10 else 0) := by
  by_cases h : c.dropLast = ['A']
  · have hv : card_value c = some 11 := by
      unfold card_value
      rw [h]
      simp
    simp [hard_value, h, hv]
  · simp [hard_value, h]

theorem hard_total_eq : ∀ hand : List Card,
    hard_total hand = (valsOf hand).sum - 10 * (aceCount hand : Int) := by
  intro hand
  induction hand with
  | nil => simp [hard_total, valsOf, aceCount]
  | cons a l ih =>
      simp only [hard_total, valsOf, aceCount, List.map_cons, List.sum_cons,
        List.countP_cons] at ih ⊢
      rw [hard_value_eq a]
      by_cases h : a.dropLast = ['A']
      · simp [h, ih]
        ring
      · simp [h, ih]
        ring

theorem hard_total_append (hand : List Card) (c : Card) :
    hard_total (hand ++ [c]) = hard_total hand + hard_value c := by
  simp [hard_total]

theorem hard_total_nonneg (hand : List Card)
    (h : ∀ c ∈ hand, c ∈ create_deck) : 0 ≤ hard_total hand := by
  induction hand with
  | nil => simp [hard_total]
  | cons a l ih =>
      have h1 : 1 ≤ hard_value a := deck_hard_one a (h a (by simp))
      have h2 : 0 ≤ hard_total l := ih (fun c hc => h c (by simp [hc]))
      simp only [hard_total, List.map_cons, List.sum_cons] at h2 ⊢
      omega

theorem ace_adjust_le (n : Nat) : ∀ t : Int, ace_adjust t n ≤ t := by
  induction n with
  | zero => intro t; simp [ace_adjust]
  | succ n ih =>
      intro t
      by_cases h : t > 21
      · rw [show ace_adjust t (n + 1) = ace_adjust (t - 10) n from if_pos h]
        have := ih (t - 10)
        omega
      · rw [show ace_adjust t (n + 1) = t from if_neg h]

theorem ace_adjust_ge (n : Nat) :
    ∀ t : Int, t - 10 * n ≤ ace_adjust t n := by
  induction n with
  | zero => intro t; simp [ace_adjust]
  | succ n ih =>
      intro t
      by_cases h : t > 21
      · rw [show ace_adjust t (n + 1) = ace_adjust (t - 10) n from if_pos h]
        have := ih (t - 10)
        push_cast at this ⊢
        omega
      · rw [show ace_adjust t (n + 1) = t from if_neg h]
        push_cast
        omega

theorem hand_total_ge_hard (hand : List Card) (h : all_valid hand)
    (t : Int) (ht : hand_total hand = some t) : hard_total hand ≤ t := by
  rw [hand_total_of_valid hand h] at ht
  obtain rfl := Option.some.inj ht
  rw [hard_total_eq]
  exact ace_adjust_ge (aceCount hand) (valsOf hand).sum

theorem dealer_loop_none_total (r : List Card) (fuel : Nat) (g : Game21)
    (acc : List Card) (ht : dealer_total g = none) :
    dealer_loop r (fuel + 1) g acc = none := by
  rw [dealer_loop, ht]

theorem dealer_loop_succ (r : List Card) (fuel : Nat) (g : Game21)
    (acc : List Card) (t : Int) (ht : dealer_total g = some t) :
    dealer_loop r (fuel + 1) g acc
      = if t < 17 then
          (match draw_card r g with
           | none => none
           | some (card, g1) =>
               dealer_loop r fuel
                 { g1 with dealer_hand := g1.dealer_hand ++ [card] }
                 (acc ++ [card]))
        else some (acc, g) := by
  rw [dealer_loop, ht]

theorem dealer_loop_stand (r : List Card) (fuel : Nat) (g : Game21)
    (acc : List Card) (t : Int) (ht : dealer_total g = some t)
    (hge : ¬ t < 17) :
    dealer_loop r (fuel + 1) g acc = some (acc, g) := by
  rw [dealer_loop_succ r fuel g acc t ht, if_neg hge]

theorem dealer_loop_draw (r : List Card) (fuel : Nat) (g : Game21)
    (acc : List Card) (t : Int) (card : Card) (g1 : Game21)
    (ht : dealer_total g = some t) (hlt : t < 17)
    (hdraw : draw_card r g = some (card, g1)) :
    dealer_loop r (fuel + 1) g acc
      = dealer_loop r fuel
          { g1 with dealer_hand := g1.dealer_hand ++ [card] }
          (acc ++ [card]) := by
  rw [dealer_loop_succ r fuel g acc t ht, if_pos hlt, hdraw]

theorem dealer_loop_drawfail (r : List Card) (fuel : Nat) (g : Game21)
    (acc : List Card) (t : Int) (ht : dealer_total g = some t)
    (hlt : t < 17) (hdraw : draw_card r g = none) :
    dealer_loop r (fuel + 1) g acc = none := by
  rw [dealer_loop_succ r fuel g acc t ht, if_pos hlt, hdraw]

theorem dealer_loop_post (r : List Card) :
    ∀ (fuel : Nat) (g : Game21) (acc ds : List Card) (g' : Game21),
      dealer_loop r fuel g acc = some (ds, g') →
      g'.dealer_hidden_revealed = g.dealer_hidden_revealed
      ∧ g'.player_hand = g.player_hand
      ∧ (∃ t, dealer_total g' = some t ∧ 17 ≤ t)
      ∧ (∃ s, ds = acc ++ s ∧ g'.dealer_hand = g.dealer_hand ++ s)
      ∧ (g.deck.length = 52 → g.deck_position ≤ 52 → r.length = 52 →
          g'.deck.length = 52 ∧ g'.deck_position ≤ 52) := by
  intro fuel
  induction fuel with
  | zero =>
      intro g acc ds g' h
      exact Option.noConfusion h
  | succ fuel ih =>
      intro g acc ds g' h
      cases ht : dealer_total g with
      | none =>
          rw [dealer_loop_none_total r fuel g acc ht] at h
          exact Option.noConfusion h
      | some t =>
          by_cases hlt : t < 17
          · cases hdraw : draw_card r g with
            | none =>
                rw [dealer_loop_drawfail r fuel g acc t ht hlt hdraw] at h
                exact Option.noConfusion h
            | some p =>
                obtain ⟨card, g1⟩ := p
                rw [dealer_loop_draw r fuel g acc t card g1 ht hlt hdraw]
                  at h
                obtain ⟨e1, e2, e3, ⟨s, hs1, hs2⟩, e5⟩ := ih _ _ _ _ h
                obtain ⟨f1, f2, f3, _, _, _, f7⟩ :=
                  draw_card_frame r g card g1 hdraw
                refine ⟨e1.trans f3, e2.trans f1, e3,
                  ⟨card :: s, ?_, ?_⟩, ?_⟩
                · rw [hs1]; simp
                · rw [hs2]
                  show g1.dealer_hand ++ [card] ++ s = _
                  rw [f2]; simp
                · intro h52 hpos hr
                  obtain ⟨d1, d2⟩ := f7 h52 hr
                  exact e5 d1 d2 hr
          · rw [dealer_loop_stand r fuel g acc t ht hlt] at h
            obtain ⟨rfl, rfl⟩ := Prod.mk.injEq .. ▸ Option.some.inj h
            exact ⟨rfl, rfl, ⟨t, ht, by omega⟩, ⟨[], by simp, by simp⟩,
              fun h52 hpos _ => ⟨h52, hpos⟩⟩

theorem dealer_loop_some (r : List Card) (hr : r.Perm create_deck) :
    ∀ (fuel : Nat) (g : Game21) (acc : List Card),
      g.deck.Perm create_deck →
      (∀ c ∈ g.dealer_hand, c ∈ create_deck) →
      1 ≤ fuel → 19 ≤ hard_total g.dealer_hand + fuel →
      ∃ ds g', dealer_loop r fuel g acc = some (ds, g') := by
  have hrlen : r.length = 52 := hr.length_eq.trans create_deck_length
  intro fuel
  induction fuel with
  | zero => intro g acc _ _ h1 _; omega
  | succ fuel ih =>
      intro g acc hdeck hmem _ hfuel
      have hvalid : all_valid g.dealer_hand := valid_of_deck _ hmem
      obtain ⟨t, ht⟩ : ∃ t, dealer_total g = some t :=
        ⟨_, hand_total_of_valid _ hvalid⟩
      by_cases hlt : t < 17
      · have hhard : hard_total g.dealer_hand ≤ t :=
          hand_total_ge_hard _ hvalid t ht
        obtain ⟨card, g1, hdraw⟩ :=
          draw_card_isSome r g hrlen (hdeck.length_eq.trans create_deck_length)
        obtain ⟨f1, f2, f3, f4, f5, f6, f7⟩ :=
          draw_card_frame r g card g1 hdraw
        have hdeck1 : g1.deck.Perm create_deck := by
          rcases f4 with h4 | h4 <;> rw [h4]
          · exact hdeck
          · exact hr
        have hcard : card ∈ create_deck := hdeck1.mem_iff.mp f5
        have hmem1 : ∀ c ∈ g1.dealer_hand ++ [card], c ∈ create_deck := by
          intro c hc
          rcases List.mem_append.mp hc with hc | hc
          · exact hmem c (f2 ▸ hc)
          · rw [List.mem_singleton.mp hc]; exact hcard
        have hhard1 : hard_total g.dealer_hand + 1
            ≤ hard_total (g1.dealer_hand ++ [card]) := by
          rw [hard_total_append, f2]
          have := deck_hard_one card hcard
          omega
        have hfuel1 : 1 ≤ fuel := by omega
        have hfuel2 : 19 ≤ hard_total (g1.dealer_hand ++ [card]) + fuel := by
          push_cast at hfuel ⊢
          omega
        obtain ⟨ds, g', hloop⟩ := ih
          { g1 with dealer_hand := g1.dealer_hand ++ [card] } (acc ++ [card])
          hdeck1 hmem1 hfuel1 hfuel2
        exact ⟨ds, g',
          (dealer_loop_draw r fuel g acc t card g1 ht hlt hdraw).trans hloop⟩
      · exact ⟨acc, g, dealer_loop_stand r fuel g acc t ht hlt⟩

/-- C4: `play_dealer_turn` always leaves the hole card revealed, appends
exactly the returned cards to the dealer's hand, and on success ends with
a dealer total of at least 17; whenever the dealer total is already at
least 17 on entry — including the soft 17 `A♠ 6♥` — it draws nothing. -/
theorem C4_play_dealer_turn :
    (∀ (r : List Card) (fuel : Nat) (g : Game21) (ds : List Card)
        (g' : Game21),
        play_dealer_turn r fuel g = some (ds, g') →
        g'.dealer_hidden_revealed = true
        ∧ g'.dealer_hand = g.dealer_hand ++ ds
        ∧ ∃ t, dealer_total g' = some t ∧ 17 ≤ t)
    ∧ (∀ (r : List Card) (fuel : Nat) (g : Game21) (t : Int),
        dealer_total g = some t → 17 ≤ t →
        play_dealer_turn r (fuel + 1) g = some ([], reveal_dealer_card g))
    ∧ play_dealer_turn create_deck 19 (test_state [] [['A','♠'], ['6','♥']])
        = some ([], reveal_dealer_card
            (test_state [] [['A','♠'], ['6','♥']])) := by
  refine ⟨?_, ?_, by decide⟩
  · intro r fuel g ds g' h
    obtain ⟨e1, _, e3, ⟨s, hs1, hs2⟩, _⟩ := dealer_loop_post r fuel _ _ _ _ h
    rw [List.nil_append] at hs1
    subst hs1
    exact ⟨e1, hs2, e3⟩
  · intro r fuel g t ht hge
    have ht' : dealer_total { g with dealer_hidden_revealed := true }
        = some t := ht
    exact dealer_loop_stand r fuel _ [] t ht' (by omega)

/-- Witness for C4: a dealer already standing on 19 draws nothing. -/
theorem C4_witness :
    dealer_total (test_state [] [['K','♠'], ['9','♥']]) = some 19
    ∧ (17 : Int) ≤ 19
    ∧ play_dealer_turn create_deck 5 (test_state [] [['K','♠'], ['9','♥']])
        = some ([], reveal_dealer_card
            (test_state [] [['K','♠'], ['9','♥']])) :=
  ⟨by decide, by decide,
   C4_play_dealer_turn.2.1 create_deck 4 (test_state [] [['K','♠'], ['9','♥']])
     19 (by decide) (by decide)⟩

/-- Counterexample to C5 as stated: in the dealer loop a drawn card can
strictly DECREASE the dealer total.  From the soft 16 `A♠ 5♥` (total 16,
so the loop draws) the next card is `9♠`, after which the Ace downgrades
and the total drops to 15; the full dealer turn then draws `9♠` and `9♥`
and stops at 24. -/
theorem C5_counterexample :
    dealer_total soft16_state = some 16
    ∧ ((16 : Int) < 17)
    ∧ hand_total (soft16_state.dealer_hand ++ [['9','♠']]) = some 15
    ∧ ¬ ((16 : Int) < 15)
    ∧ play_dealer_turn create_deck 19 soft16_state
        = some ([['9','♠'], ['9','♥']],
            { deck := create_deck, deck_position := 34, player_hand := [],
              dealer_hand := [['A','♠'], ['5','♥'], ['9','♠'], ['9','♥']],
              dealer_hidden_revealed := true }) := by
  refine ⟨by decide, by decide, by decide, by decide, by decide⟩

/-- C5 (amended): `play_dealer_turn` terminates on every reachable round
state — fuel 19 always suffices — because each drawn deck card adds at
least 1 to the hard total (Aces counted as 1), which is a lower bound on
the dealer total; the dealer total itself need not increase. -/
theorem C5_play_dealer_turn_terminates :
    (∀ (r : List Card) (g : Game21), r.Perm create_deck →
        g.deck.Perm create_deck →
        (∀ c ∈ g.dealer_hand, c ∈ create_deck) →
        ∃ ds g', play_dealer_turn r 19 g = some (ds, g'))
    ∧ (∀ (hand : List Card) (c : Card), c ∈ create_deck →
        hard_total hand + 1 ≤ hard_total (hand ++ [c]))
    ∧ (∀ (hand : List Card) (t : Int), all_valid hand →
        hand_total hand = some t → hard_total hand ≤ t) := by
  refine ⟨?_, ?_, fun hand t hv ht => hand_total_ge_hard hand hv t ht⟩
  · intro r g hr hdeck hmem
    unfold play_dealer_turn
    exact dealer_loop_some r hr 19
      { g with dealer_hidden_revealed := true } [] hdeck hmem (by omega)
      (by have := hard_total_nonneg g.dealer_hand hmem; push_cast; omega)
  · intro hand c hc
    rw [hard_total_append]
    have := deck_hard_one c hc
    omega

/-- Witness for C5: the dealer turn from the soft-16 state terminates. -/
theorem C5_witness :
    create_deck.Perm create_deck
    ∧ soft16_state.deck.Perm create_deck
    ∧ (∀ c ∈ soft16_state.dealer_hand, c ∈ create_deck)
    ∧ ∃ ds g', play_dealer_turn create_deck 19 soft16_state
        = some (ds, g') :=
  ⟨List.Perm.refl _, List.Perm.refl _, by decide,
   C5_play_dealer_turn_terminates.1 create_deck soft16_state
     (List.Perm.refl _) (List.Perm.refl _) (by decide)⟩

theorem valsOf_sum_le (b : Int) : ∀ hand : List Card,
    (∀ c ∈ hand, (card_value c).getD 0 ≤ b) →
    (valsOf hand).sum ≤ b * hand.length := by
  intro hand
  induction hand with
  | nil => intro _; simp [valsOf]
  | cons a l ih =>
      intro h
      have ha : (card_value a).getD 0 ≤ b := h a (by simp)
      have hl := ih (fun c hc => h c (by simp [hc]))
      simp only [valsOf, List.map_cons, List.sum_cons, List.length_cons]
        at hl ⊢
      push_cast
      nlinarith [hl, ha]

theorem ace_adjust_drop (a : Nat) (S : Int) (h : 21 < S) (ha : 1 ≤ a) :
    ace_adjust S a ≤ S - 10 := by
  cases a with
  | zero => omega
  | succ n =>
      rw [show ace_adjust S (n + 1) = ace_adjust (S - 10) n from if_pos h]
      exact ace_adjust_le n (S - 10)

/-- Counterexample to C7 as stated: the five-card deck hand
`K♠ K♥ K♦ K♣ Q♠` (no duplicates) totals 50, outside the claimed `[0, 30]`
range. -/
theorem C7_counterexample :
    (([['K','♠'], ['K','♥'], ['K','♦'], ['K','♣'], ['Q','♠']] :
        List Card).length ≤ 5)
    ∧ (∀ c ∈ ([['K','♠'], ['K','♥'], ['K','♦'], ['K','♣'], ['Q','♠']] :
        List Card), c ∈ create_deck)
    ∧ ([['K','♠'], ['K','♥'], ['K','♦'], ['K','♣'], ['Q','♠']] :
        List Card).Nodup
    ∧ hand_total [['K','♠'], ['K','♥'], ['K','♦'], ['K','♣'], ['Q','♠']]
        = some 50
    ∧ ¬ ((50 : Int) ≤ 30) := by decide

/-- C7 (amended): for every hand of at most 5 cards drawn from the
standard deck, `hand_total` succeeds and its value lies in `[0, 50]` — in
particular it is never negative.  (The claimed upper bound 30 is too
small: five ten-valued cards reach 50.) -/
theorem C7_hand_total_bounds (hand : List Card) (hlen : hand.length ≤ 5)
    (hmem : ∀ c ∈ hand, c ∈ create_deck) :
    ∃ t, hand_total hand = some t ∧ 0 ≤ t ∧ t ≤ 50 := by
  have hv : all_valid hand := valid_of_deck hand hmem
  refine ⟨ace_adjust (valsOf hand).sum (aceCount hand),
    hand_total_of_valid hand hv, ?_, ?_⟩
  · have h1 : hard_total hand ≤ ace_adjust (valsOf hand).sum
        (aceCount hand) := by
      rw [hard_total_eq]
      exact ace_adjust_ge (aceCount hand) (valsOf hand).sum
    have h0 := hard_total_nonneg hand hmem
    omega
  · by_cases ha : aceCount hand = 0
    · have hten : ∀ c ∈ hand, (card_value c).getD 0 ≤ 10 := by
        intro c hc
        have hnotace : ¬ (fun c => decide (c.dropLast = ['A'])) c = true :=
          List.countP_eq_zero.mp ha c hc
        exact deck_value_le_ten c (hmem c hc)
          (by simpa using hnotace)
      have hS : (valsOf hand).sum ≤ 10 * hand.length :=
        valsOf_sum_le 10 hand hten
      rw [ha]
      have : ace_adjust (valsOf hand).sum 0 = (valsOf hand).sum := rfl
      rw [this]
      have hlen' : (hand.length : Int) ≤ 5 := by exact_mod_cast hlen
      nlinarith
    · have hS : (valsOf hand).sum ≤ 11 * hand.length :=
        valsOf_sum_le 11 hand (fun c hc => deck_value_le c (hmem c hc))
      have hlen' : (hand.length : Int) ≤ 5 := by exact_mod_cast hlen
      by_cases hb : (valsOf hand).sum ≤ 21
      · have := ace_adjust_le (aceCount hand) (valsOf hand).sum
        omega
      · have := ace_adjust_drop (aceCount hand) (valsOf hand).sum
          (by omega) (by omega)
        nlinarith

/-- Witness for C7: the amended bounds at the concrete hand `A♠ K♥`. -/
theorem C7_witness :
    (([['A','♠'], ['K','♥']] : List Card).length ≤ 5)
    ∧ (∀ c ∈ ([['A','♠'], ['K','♥']] : List Card), c ∈ create_deck)
    ∧ ∃ t, hand_total [['A','♠'], ['K','♥']] = some t ∧ 0 ≤ t ∧ t ≤ 50 :=
  ⟨by decide, by decide,
   C7_hand_total_bounds [['A','♠'], ['K','♥']] (by decide) (by decide)⟩

/-- Counterexample to C8 as stated: `'15♠'` lies outside the 13×4
rank/suit domain, yet `card_value` does not fail — it returns 15. -/
theorem C8_counterexample :
    (∀ r ∈ ranks, ∀ s ∈ suits, (['1','5','♠'] : Card) ≠ r ++ [s])
    ∧ card_value ['1','5','♠'] = some 15 := by decide

/-- C8 (amended): `card_value` performs no domain validation and the code
has no InvalidCard error kind: an out-of-domain card whose rank parses as
a nonnegative integer (`'15♠'`) is accepted and returns that integer; an
out-of-domain card with a non-numeric rank (`'X♠'`) fails only with the
`ValueError` raised by `int()` (embedded as `none`); cards inside the
13×4 domain never fail. -/
theorem C8_card_value_no_validation :
    (∀ c ∈ create_deck, (card_value c).isSome)
    ∧ card_value ['1','5','♠'] = some 15
    ∧ card_value ['X','♠'] = none :=
  ⟨deck_all_valid, by decide, by decide⟩

/-- Witness for C8: an in-domain card evaluates successfully. -/
theorem C8_witness :
    (['A','♠'] : Card) ∈ create_deck ∧ (card_value ['A','♠']).isSome :=
  ⟨by decide, C8_card_value_no_validation.1 ['A','♠'] (by decide)⟩

theorem player_hit_inv (r : List Card) (g : Game21) (c : Card)
    (g' : Game21) (hr : r.length = 52) (hg : ShoeInv g)
    (h : player_hit r g = some (c, g')) : ShoeInv g' := by
  unfold player_hit at h
  split at h
  · exact Option.noConfusion h
  · rename_i card g1 heq
    obtain ⟨rfl, rfl⟩ := Prod.mk.injEq .. ▸ Option.some.inj h
    obtain ⟨_, _, _, _, _, _, f7⟩ := draw_card_frame r g card g1 heq
    exact f7 hg.1 hr

theorem deal_initial_inv (r : List Card) (g g' : Game21)
    (hr : r.length = 52) (hg : ShoeInv g)
    (h : deal_initial_cards r g = some g') : ShoeInv g' := by
  unfold deal_initial_cards at h
  split at h
  · exact Option.noConfusion h
  · rename_i c1 g1 h1
    split at h
    · exact Option.noConfusion h
    · rename_i c2 g2 h2
      split at h
      · exact Option.noConfusion h
      · rename_i c3 g3 h3
        split at h
        · exact Option.noConfusion h
        · rename_i c4 g4 h4
          obtain rfl := Option.some.inj h
          obtain ⟨_, _, _, _, _, _, f1⟩ := draw_card_frame r g c1 g1 h1
          obtain ⟨_, _, _, _, _, _, f2⟩ := draw_card_frame r g1 c2 g2 h2
          obtain ⟨_, _, _, _, _, _, f3⟩ :=
            draw_card_frame r { g2 with player_hand := [c1, c2] } c3 g3 h3
          obtain ⟨_, _, _, _, _, _, f4⟩ := draw_card_frame r g3 c4 g4 h4
          obtain ⟨l1, _⟩ := f1 hg.1 hr
          obtain ⟨l2, _⟩ := f2 l1 hr
          obtain ⟨l3, _⟩ := f3 l2 hr
          obtain ⟨l4, p4⟩ := f4 l3 hr
          exact ⟨l4, p4⟩

theorem decide_winner_state (g : Game21) (m : String) (g' : Game21)
    (h : decide_winner g = some (m, g')) :
    g' = { g with dealer_hidden_revealed := true } := by
  simp only [decide_winner] at h
  split at h
  · split_ifs at h <;>
      · obtain ⟨_, rfl⟩ := Prod.mk.injEq .. ▸ Option.some.inj h
        rfl
  · exact Option.noConfusion h

/-- C10: every engine operation preserves the shoe invariant — the deck
always holds exactly 52 cards and the cursor stays within `[0, 52]`, the
cursor marking the boundary between dealt and undealt positions.  The
query operations (`player_total`, `dealer_total`, `card_value`,
`hand_total`) are pure functions of the state and trivially preserve it. -/
theorem C10_shoe_invariant :
    (∀ (d : List Card) (g : Game21), d.Perm create_deck →
        ShoeInv (new_round d g))
    ∧ (∀ (r : List Card) (g : Game21) (c : Card) (g' : Game21),
        r.Perm create_deck → ShoeInv g → draw_card r g = some (c, g') →
        ShoeInv g')
    ∧ (∀ (r : List Card) (g g' : Game21), r.Perm create_deck → ShoeInv g →
        deal_initial_cards r g = some g' → ShoeInv g')
    ∧ (∀ (r : List Card) (g : Game21) (c : Card) (g' : Game21),
        r.Perm create_deck → ShoeInv g → player_hit r g = some (c, g') →
        ShoeInv g')
    ∧ (∀ (r : List Card) (fuel : Nat) (g : Game21) (ds : List Card)
        (g' : Game21), r.Perm create_deck → ShoeInv g →
        play_dealer_turn r fuel g = some (ds, g') → ShoeInv g')
    ∧ (∀ g : Game21, ShoeInv g → ShoeInv (reveal_dealer_card g))
    ∧ (∀ (g : Game21) (m : String) (g' : Game21), ShoeInv g →
        decide_winner g = some (m, g') → ShoeInv g') := by
  refine ⟨?_, ?_, ?_, ?_, ?_, ?_, ?_⟩
  · intro d g hd
    exact ⟨hd.length_eq.trans create_deck_length, Nat.zero_le 52⟩
  · intro r g c g' hr hg h
    obtain ⟨_, _, _, _, _, _, f7⟩ := draw_card_frame r g c g' h
    exact f7 hg.1 (hr.length_eq.trans create_deck_length)
  · intro r g g' hr hg h
    exact deal_initial_inv r g g' (hr.length_eq.trans create_deck_length)
      hg h
  · intro r g c g' hr hg h
    exact player_hit_inv r g c g' (hr.length_eq.trans create_deck_length)
      hg h
  · intro r fuel g ds g' hr hg h
    obtain ⟨_, _, _, _, e5⟩ := dealer_loop_post r fuel _ _ _ _ h
    exact e5 hg.1 hg.2 (hr.length_eq.trans create_deck_length)
  · intro g hg
    exact hg
  · intro g m g' hg h
    rw [decide_winner_state g m g' h]
    exact hg

/-- Witness for C10: the invariant after a new round over the identity
shuffle. -/
theorem C10_witness :
    create_deck.Perm create_deck
    ∧ ShoeInv (new_round create_deck (test_state [] [])) :=
  ⟨List.Perm.refl _,
   C10_shoe_invariant.1 create_deck (test_state [] []) (List.Perm.refl _)⟩
